import Mathlib

/-!
A verification development of the cryptodatapy CryptoCompare client: a
shallow embedding of `datarequest.py` and `cryptocompare.py`.

Modelling conventions:
- epoch timestamps and calendar dates are natural numbers (seconds since the
  Unix epoch); the helper `convert_datetime_to_unix_tmsp` of the repository
  (module `util.convertparams`, not among the source files) is therefore the
  identity on these values, per the spec: "Convert calendar dates to the
  vendor's native time encoding (seconds-since-epoch)";
- a vendor close price is an integer or the NaN sentinel (`PVal`);
- the HTTP layer is an oracle mapping the index of a call to its outcome;
- `datetime.now()` is an explicit parameter `now`.
-/

namespace CryptoDataPy

/-- A Python runtime value, as far as the `DataRequest` property setters
inspect one (`isinstance` checks on str / int / float / list / None). -/
inductive PyVal where
  | str (s : String)
  | int (n : Int)
  | float (numerator denominator : Int)
  | list (l : List PyVal)
  | none
  | dict

/-- datarequest.py lines 242-250, the `fields` setter: a string is wrapped
into a one-element list; every other value is stored unchanged, with no
validation at all. -/
def fields_setter (v : PyVal) : PyVal :=
  match v with
  | .str s => .list [.str s]
  | v => v

/-- A stored `fields` value of the shape the docstring documents ("list or
str", post-setter always a list of strings). -/
def validFieldsVal (v : PyVal) : Bool :=
  match v with
  | .list l => l.all fun x => match x with | .str _ => true | _ => false
  | _ => false

/-- datarequest.py lines 303-314, the `trials` setter. The second branch is
`isinstance(trials, int) or isinstance(trial, str)` where `trial` is an
undefined name: an `int` short-circuits the `or` and is stored, `None` is
stored, and every other value reaches the undefined name and raises a
NameError instead of the intended Exception. -/
def trials_setter (v : PyVal) : Except String PyVal :=
  match v with
  | .none => .ok .none
  | .int n => .ok (.int n)
  | _ => .error "NameError: name trial is not defined"

/-- datarequest.py line 124: the enumerated frequency tokens. -/
def freqTokens : List String :=
  ["tick", "1min", "5min", "10min", "20min", "30min", "1h", "2h", "4h", "8h", "d", "w", "m"]

/-- datarequest.py lines 119-129, the `freq` setter: reject anything outside
the enumeration. -/
def freq_setter (v : String) : Except String String :=
  if v ∈ freqTokens then .ok v else .error "invalid data frequency"

/-- A vendor price value: a number, or the NaN sentinel. -/
inductive PVal where
  | num (q : Int)
  | nan
deriving DecidableEq

/-- One OHLCV observation row as the paginated fetch and the normalizer use
it: the epoch-seconds `time` field, the `close` price (consulted by the
sentinel checks and the zero-close filter), and the volume as a distinguishing
payload. The open/high/low columns play no role in any control flow and are
not modelled separately. -/
structure Row where
  time : Nat
  close : PVal
  volume : Int
deriving DecidableEq

/-- The validated request descriptor (datarequest.py `DataRequest`), with the
fields the CryptoCompare client consumes. -/
structure DataRequest where
  tickers : List String
  freq : String
  quote_ccy : Option String
  exch : Option String
  start_date : Option Nat
  end_date : Option Nat
  fields : List String
  trials : Nat
  pause : Nat
deriving DecidableEq

/-- Insert into a key-sorted list, before any element of equal key: the
resulting sort (`sortByKey`) is stable. -/
def insertByKey {α : Type} (key : α → Nat) (x : α) : List α → List α
  | [] => [x]
  | y :: ys => if key x ≤ key y then x :: y :: ys else y :: insertByKey key x ys

/-- `df.sort_index()` on the timestamp index: a stable sort by key (the order
of rows sharing a timestamp is modelled as stable). -/
def sortByKey {α : Type} (key : α → Nat) (l : List α) : List α :=
  l.foldr (insertByKey key) []

/-- `df[~df.index.duplicated()]`: keep the first occurrence of each index
value, dropping any row whose key was already seen. -/
def dedupFirstKey {α : Type} (key : α → Nat) : List Nat → List α → List α
  | _, [] => []
  | seen, r :: rs =>
    if key r ∈ seen then dedupFirstKey key seen rs
    else r :: dedupFirstKey key (key r :: seen) rs

/-- The `[start, end]` window clip of the normalizers (cryptocompare.py lines
296-300 and 334-338): each bound is applied only when the caller supplied
it, and both bounds are inclusive. -/
def clipByKey {α : Type} (key : α → Nat) (startD endD : Option Nat) (l : List α) : List α :=
  let l1 := match startD with
    | some a => l.filter fun r => decide (a ≤ key r)
    | Option.none => l
  match endD with
  | some b => l1.filter fun r => decide (key r ≤ b)
  | Option.none => l1

/-- The row filter `df[df['close'] != 0].dropna()`: a NaN close passes the
`!= 0` comparison in pandas but is removed by `dropna`, so a row survives
exactly when its close is a number other than zero. -/
def closeOk (r : Row) : Bool :=
  match r.close with
  | .num q => q != 0
  | .nan => false

/-- cryptocompare.py lines 268-302, `wrangle_ohlcv_resp`: derive the
timestamp index (identity here), sort by it, rename/project the columns
(identity on the modelled row shape), drop duplicate timestamps keeping the
first occurrence, drop zero/NaN closes, clip to the requested window. -/
def wrangle_ohlcv_resp (req : DataRequest) (rows : List Row) : List Row :=
  let sorted := sortByKey Row.time rows
  let dd := dedupFirstKey Row.time [] sorted
  let nz := dd.filter closeOk
  clipByKey Row.time req.start_date req.end_date nz

/-- The Python slice test `s[-n:] == suffix` (with n the length of the
suffix): s ends with the suffix. Stated on the character lists so that it
evaluates by kernel reduction. -/
def endsWithStr (s suffix : String) : Bool :=
  List.isSuffixOf suffix.data s.data

/-- cryptocompare.py lines 219-227: map the descriptor frequency token to the
vendor interval keyword (`freq[-3:] == 'min'` and `freq[-1] == 'h'` are
suffix tests; everything unrecognized falls through to daily). -/
def convertFreq (freq : String) : String :=
  if endsWithStr freq "min" then "histominute"
  else if endsWithStr freq "h" then "histohour"
  else if freq == "d" then "histoday"
  else "histoday"

/-- Epoch seconds of 2010-01-01, the default start when none is requested. -/
def unixTmsp2010 : Nat := 1262304000

/-- cryptocompare.py lines 245-258: the vendor start time. Line 247-248
computes "7 days before now" for minute frequencies, but lines 250-253 are an
independent `if`/`else` (not an `elif`), so that value is unconditionally
overwritten by the requested start date (or the 2010 default). The dead
clamp is kept here as the unused binding `clamped`. -/
def convert_start_date (freq : String) (startDate : Option Nat) (now : Nat) : Nat :=
  let _clamped : Option Nat :=
    if endsWithStr freq "min" then some (now - 7 * 86400) else Option.none
  match startDate with
  | Option.none => unixTmsp2010
  | some d => d

/-- cryptocompare.py lines 254-258: the vendor end time defaults to now. -/
def convert_end_date (endDate : Option Nat) (now : Nat) : Nat :=
  match endDate with
  | Option.none => now
  | some d => d

/-- The outcome of one paged GET, as the fetch loops distinguish outcomes:
`success rows` is a "Success" response whose `Data.Data` parses into rows;
`assertFail` is a response whose status is not "Success" (the `assert`
raises AssertionError); `exn` is any other exception of the attempt — a
transport error raised by `requests.get`, or a response shape that breaks
the parsing (both reach the generic `except Exception` handler). -/
inductive PageResp (R : Type) where
  | success (rows : List R)
  | assertFail
  | exn

/-- The per-symbol loop state of `fetch_ohlcv` / `fetch_onchain`: the retry
counter, the `toTs` cursor, the accumulated pages (`df0`), plus two
observability fields, the cursor of every paged call made so far and the
number of `sleep(pause)` calls. -/
structure LoopState (R : Type) where
  attempts : Nat
  endDate : Nat
  acc : List R
  calls : List Nat
  pauses : Nat
deriving DecidableEq

/-- The loop state at the top of a symbol's while loop: a fresh attempt
budget, the converted end date as cursor, nothing accumulated. -/
def initState (R : Type) (endDate : Nat) : LoopState R :=
  ⟨0, endDate, [], [], 0⟩

/-- The state after a failed attempt (`except AssertionError`): the call was
made at the unchanged cursor, `attempts += 1`, one `sleep(pause)`. -/
def failUpd {R : Type} (s : LoopState R) : LoopState R :=
  { s with calls := s.calls ++ [s.endDate], attempts := s.attempts + 1,
           pauses := s.pauses + 1 }

/-- cryptocompare.py lines 368-409 (and the identical lines 454-494): the
per-symbol paging loop, parametrized by the data kind's stop condition and
earliest-timestamp projection, driven by an oracle giving the outcome of the
n-th paged call. `fuel` bounds the number of iterations the model unfolds;
`Option.none` means the bound was hit, not a behavior of the code.
- while `attempts < trials`:
  - `success rows`: append the page to the accumulator; stop when the stop
    condition holds, else set the cursor to the earliest timestamp of the
    page, sleep, and loop;
  - `assertFail`: `attempts += 1`, sleep, and stop if `attempts == 3` (a
    hard-coded bound, independent of `trials`), else retry at the same
    cursor;
  - `exn`: log the schema-drift warning and stop at once (no retry). -/
def pagedLoop {R : Type} (stop : List R → Bool) (earliest : List R → Nat)
    (oracle : Nat → PageResp R) (trials : Nat) :
    Nat → LoopState R → Option (LoopState R)
  | 0, _ => Option.none
  | fuel + 1, s =>
    if s.attempts < trials then
      match oracle s.calls.length with
      | .success rows =>
        let s1 : LoopState R := { s with calls := s.calls ++ [s.endDate], acc := s.acc ++ rows }
        if stop rows then some s1
        else pagedLoop stop earliest oracle trials fuel
               { s1 with endDate := earliest rows, pauses := s1.pauses + 1 }
      | .assertFail =>
        let s1 := failUpd s
        if s1.attempts == 3 then some s1
        else pagedLoop stop earliest oracle trials fuel s1
      | .exn => some { s with calls := s.calls ++ [s.endDate] }
    else some s

/-- `data.close[0] == 0 or data.close[0].astype(str) == 'nan'`: the earliest
row of the page carries the zero or NaN sentinel. (The check is reached only
for pages long enough not to stop already, so the empty-page value is
irrelevant; Python short-circuits before indexing an empty frame.) -/
def sentinelHead (rows : List Row) : Bool :=
  match rows.head? with
  | some r => r.close == PVal.num 0 || r.close == PVal.nan
  | Option.none => false

/-- cryptocompare.py line 387: stop paging when the page holds fewer than
`max_obs_per_call + 1` observations, or its earliest close is the zero/NaN
sentinel. The requested start date is not consulted. -/
def ohlcvStop (maxObs : Nat) (rows : List Row) : Bool :=
  decide (rows.length < maxObs + 1) || sentinelHead rows

/-- `data.time[0]`: the timestamp of the earliest observation of the page
(the vendor returns pages in ascending time order). -/
def earliestTime (rows : List Row) : Nat :=
  match rows.head? with
  | some r => r.time
  | Option.none => 0

/-- The shape of a pandas frame, as far as `fetch_data` inspects one: its
column set and whether it holds any row. `pd.concat` (either axis) unions
the columns; a concatenation is non-empty iff either operand is. -/
structure Frame where
  cols : List String
  nonempty : Bool
deriving DecidableEq

/-- The `pd.DataFrame()` accumulators start empty, with no columns. -/
def emptyFrame : Frame := ⟨[], false⟩

/-- `pd.concat`: union of the column sets; empty iff both operands are. -/
def concatFrames (a b : Frame) : Frame :=
  ⟨a.cols ++ b.cols.filter (fun c => !(a.cols.contains c)), a.nonempty || b.nonempty⟩

/-- The canonical price columns `wrangle_ohlcv_resp` projects to (line 288),
also the first five entries of the field catalog (`get_fields`). -/
def ohlcvFields : List String := ["open", "high", "low", "close", "volume"]

/-- The value of `fetch_ohlcv`: the resulting frame shape, and its rows
tagged with their ticker. -/
structure OhlcvResult where
  frame : Frame
  rows : List (String × Row)
deriving DecidableEq

/-- The per-ticker fold of `fetch_ohlcv` (lines 359-419): run the paging
loop for each ticker with a fresh attempt budget; when the accumulated raw
pages are non-empty, wrangle them and concatenate (a symbol whose loop
accumulated nothing is skipped, so other symbols' data still flows through). -/
def fetchOhlcvGo (req : DataRequest) (oracle : String → Nat → PageResp Row)
    (maxObs fuel endD : Nat) : List String → OhlcvResult → Option OhlcvResult
  | [], acc => some acc
  | t :: ts, acc =>
    match pagedLoop (ohlcvStop maxObs) earliestTime (oracle t) req.trials fuel
        (initState Row endD) with
    | Option.none => Option.none
    | some s =>
      if s.acc.isEmpty then fetchOhlcvGo req oracle maxObs fuel endD ts acc
      else
        let w := wrangle_ohlcv_resp req s.acc
        fetchOhlcvGo req oracle maxObs fuel endD ts
          ⟨concatFrames acc.frame ⟨ohlcvFields, !w.isEmpty⟩,
           acc.rows ++ w.map (fun r => (t, r))⟩

/-- cryptocompare.py lines 348-421, `fetch_ohlcv`. -/
def fetch_ohlcv (req : DataRequest) (oracle : String → Nat → PageResp Row)
    (maxObs fuel now : Nat) : Option OhlcvResult :=
  fetchOhlcvGo req oracle maxObs fuel (convert_end_date req.end_date now)
    req.tickers ⟨emptyFrame, []⟩

/-- One on-chain observation row: epoch time, the tagged symbol, the row id,
and the named numeric metric columns. -/
structure ORow where
  time : Nat
  symbol : String
  id : Nat
  metrics : List (String × Int)
deriving DecidableEq

/-- `all(data.iloc[0] == 0)` over an on-chain row: the row always carries the
string-valued `symbol` column, and in Python a string never compares equal
to 0, so the conjunction over the whole row is always false. -/
def oHeadAllZero (_rows : List ORow) : Bool := false

/-- `all(data.iloc[0].astype(str) == 'nan')`: the `symbol` column renders as
the ticker string, never as "nan", so this conjunction is always false. -/
def oHeadAllNan (_rows : List ORow) : Bool := false

/-- cryptocompare.py line 472: the on-chain stop condition. -/
def onchainStop (maxObs : Nat) (rows : List ORow) : Bool :=
  decide (rows.length < maxObs + 1) || oHeadAllZero rows || oHeadAllNan rows

/-- `data.time[0]` for on-chain pages. -/
def oEarliest (rows : List ORow) : Nat :=
  match rows.head? with
  | some r => r.time
  | Option.none => 0

/-- The columns of `pd.DataFrame(accumulated on-chain rows)` after
`wrangle_onchain_resp` drops `id` and re-keys by (date, ticker): the union
of the metric names, in first-seen order. -/
def metricNames (rows : List ORow) : List String :=
  rows.foldl (fun acc r =>
    acc ++ (r.metrics.map Prod.fst).filter (fun c => !(acc.contains c))) []

/-- cryptocompare.py lines 305-346, `wrangle_onchain_resp` at row level:
sort by time, drop duplicate timestamps keeping the first occurrence, clip
to the requested window. (The zero-value row filter is commented out in the
source; the float coercion and the (date, ticker) re-keying do not change
which rows survive.) -/
def wrangle_onchain_resp (req : DataRequest) (rows : List ORow) : List ORow :=
  let sorted := sortByKey ORow.time rows
  let dd := dedupFirstKey ORow.time [] sorted
  clipByKey ORow.time req.start_date req.end_date dd

/-- The per-ticker fold of `fetch_onchain` (lines 445-500), also returning
the total number of paged HTTP calls made. -/
def fetchOnchainGo (req : DataRequest) (oracle : String → Nat → PageResp ORow)
    (maxObs fuel endD : Nat) : List String → Frame → Nat → Option (Frame × Nat)
  | [], df, calls => some (df, calls)
  | t :: ts, df, calls =>
    match pagedLoop (onchainStop maxObs) oEarliest (oracle t) req.trials fuel
        (initState ORow endD) with
    | Option.none => Option.none
    | some s =>
      let calls1 := calls + s.calls.length
      if s.acc.isEmpty then fetchOnchainGo req oracle maxObs fuel endD ts df calls1
      else fetchOnchainGo req oracle maxObs fuel endD ts
        (concatFrames df ⟨metricNames s.acc, !(wrangle_onchain_resp req s.acc).isEmpty⟩)
        calls1

/-- cryptocompare.py lines 423-502, `fetch_onchain`: raise before any paged
call when the converted frequency is not daily, or when no requested field
is a recognized on-chain field; otherwise page per ticker. The second
component counts the paged HTTP data calls performed. -/
def fetch_onchain (req : DataRequest) (onchainList : List String)
    (oracle : String → Nat → PageResp ORow) (maxObs fuel now : Nat) :
    Option (Except String Frame × Nat) :=
  if convertFreq req.freq != "histoday" then
    some (.error "On-chain data is only available on a daily frequency", 0)
  else if !(req.fields.any (fun f => onchainList.contains f)) then
    some (.error "Field is not an on-chain data field", 0)
  else
    match fetchOnchainGo req oracle maxObs fuel (convert_end_date req.end_date now)
        req.tickers emptyFrame 0 with
    | Option.none => Option.none
    | some (df, calls) => some (.ok df, calls)

/-- cryptocompare.py lines 504-561, `fetch_data`: validate the requested
fields against the catalog, split the catalog at its fixed index 5 into
price and on-chain fields, run each kind-specific fetch when a requested
field belongs to it (each wrapped in try/except that only logs a warning on
failure), merge column-wise, raise on an empty result, and project to the
requested fields — `df.loc[:, fields]` raises a KeyError when a requested
field is missing from the merged columns. -/
def fetch_data (req : DataRequest) (fieldsList : List String)
    (ohlcvOracle : String → Nat → PageResp Row)
    (onchainOracle : String → Nat → PageResp ORow)
    (maxObs fuel now : Nat) : Option (Except String Frame) :=
  if !(req.fields.all (fun f => fieldsList.contains f)) then
    some (.error "Fields are not available")
  else
    let ohlcvList := fieldsList.take 5
    let onchainList := fieldsList.drop 5
    let step1 : Option Frame :=
      if req.fields.any (fun f => ohlcvList.contains f) then
        match fetch_ohlcv req ohlcvOracle maxObs fuel now with
        | Option.none => Option.none
        | some res => some (concatFrames emptyFrame res.frame)
      else some emptyFrame
    match step1 with
    | Option.none => Option.none
    | some df1 =>
      let step2 : Option Frame :=
        if req.fields.any (fun f => onchainList.contains f) then
          match fetch_onchain req onchainList onchainOracle maxObs fuel now with
          | Option.none => Option.none
          | some (Except.error _, _) => some df1
          | some (Except.ok fr, _) => some (concatFrames df1 fr)
        else some df1
      match step2 with
      | Option.none => Option.none
      | some df2 =>
        if !df2.nonempty then
          some (.error "Check data request parameters and try again")
        else if req.fields.all (fun f => df2.cols.contains f) then
          some (.ok ⟨req.fields, df2.nonempty⟩)
        else
          some (.error "KeyError: requested fields not in columns")

/-- A metadata GET response: the top-level status string and the `Data`
payload (here the asset symbols that index the formatted frame), or no
parseable payload at all. -/
structure VendorResp where
  response : String
  data : Option (List String)
deriving DecidableEq

/-- A metadata GET either raises in `requests.get` itself or yields a
response object. -/
inductive HttpResult where
  | transportErr
  | resp (r : VendorResp)
deriving DecidableEq

/-- cryptocompare.py lines 68-99, `get_assets(as_list=True)`. The
try/except only guards the status assertion: a non-"Success" status logs a
warning, and control falls through to `pd.DataFrame(r.json()['Data']).T`,
which reads the `Data` payload unconditionally — a missing payload raises a
KeyError out of the method, and a transport error (not an AssertionError)
propagates uncaught. -/
def get_assets (h : HttpResult) : Except String (List String) :=
  match h with
  | .transportErr => .error "requests transport error propagates"
  | .resp r =>
    match r.data with
    | Option.none => .error "KeyError: Data"
    | some d => .ok d

/-- cryptocompare.py lines 49-51: when the constructor is given no asset
catalog it calls `get_assets(as_list=True)` with no exception handler, so
whatever `get_assets` raises escapes construction. -/
def cryptoCompareInitAssets (assets : Option (List String)) (h : HttpResult) :
    Except String (List String) :=
  match assets with
  | some a => .ok a
  | Option.none => get_assets h

/-! Concrete requests, oracles and row sets used to evaluate the model on
explicit inputs. -/

/-- An oracle whose every paged call returns a non-"Success" response. -/
def allFailRow : Nat → PageResp Row := fun _ => PageResp.assertFail

/-- Two tickers, retry budget 5: symbol AAA always fails, symbol BBB returns
one short page. -/
def c2req : DataRequest :=
  ⟨["AAA", "BBB"], "d", Option.none, Option.none, Option.none, Option.none, ["close"], 5, 0⟩

/-- AAA: every call a non-"Success" response; BBB: first call a one-row page. -/
def c2oracle : String → Nat → PageResp Row := fun t n =>
  if t == "BBB" && n == 0 then PageResp.success [⟨10, PVal.num 5, 1⟩] else PageResp.assertFail

/-- The loop state BBB's paging loop ends in. -/
def c2sB : LoopState Row := ⟨0, 1000, [⟨10, PVal.num 5, 1⟩], [1000], 0⟩

/-- A request whose start date (epoch 100) lies after all returned data. -/
def c3req : DataRequest :=
  ⟨["AAA"], "d", Option.none, Option.none, some 100, Option.none, ["close"], 3, 0⟩

/-- First call: a full page (two rows at page size 1) of nonzero closes whose
earliest timestamp 5 is already below the requested start 100; second call: a
short page. -/
def c3oracle : Nat → PageResp Row := fun n =>
  if n == 0 then PageResp.success [⟨5, PVal.num 3, 1⟩, ⟨6, PVal.num 4, 1⟩]
  else PageResp.success [⟨1, PVal.num 2, 1⟩]

/-- An oracle answering every call with the same one-row page. -/
def c3wOracle : Nat → PageResp Row := fun _ => PageResp.success [⟨7, PVal.num 1, 1⟩]

/-- An hourly request that asks for a price field and an on-chain field. -/
def c4req : DataRequest :=
  ⟨["BTC"], "1h", Option.none, Option.none, Option.none, Option.none,
   ["close", "txCount"], 3, 0⟩

/-- The field catalog: the five price fields, then one on-chain field. -/
def c4cat : List String := ["open", "high", "low", "close", "volume", "txCount"]

/-- Price-bar oracle that always fails. -/
def c4ohOracle : String → Nat → PageResp Row := fun _ _ => PageResp.assertFail

/-- On-chain oracle (never reached on the hourly request). -/
def c4onOracle : String → Nat → PageResp ORow := fun _ _ => PageResp.exn

/-- A weekly request for an on-chain field: `convertFreq` maps the token w to
the daily vendor interval. -/
def c4wreq : DataRequest :=
  ⟨["BTC"], "w", Option.none, Option.none, Option.none, Option.none, ["txCount"], 3, 0⟩

/-- On-chain oracle returning one short page with a txCount metric. -/
def c4wOracle : String → Nat → PageResp ORow := fun _ _ =>
  PageResp.success [⟨5, "BTC", 1, [("txCount", 7)]⟩]

/-- A daily one-ticker request for the close price. -/
def c5req : DataRequest :=
  ⟨["BTC"], "d", Option.none, Option.none, Option.none, Option.none, ["close"], 3, 0⟩

/-- Price-bar oracle returning one short page. -/
def c5ohOracle : String → Nat → PageResp Row := fun _ _ =>
  PageResp.success [⟨10, PVal.num 5, 1⟩]

/-- On-chain oracle (never reached: no on-chain field is requested). -/
def c5onOracle : String → Nat → PageResp ORow := fun _ _ => PageResp.exn

/-- A request with both window bounds set: start 5, end 10. -/
def c6req : DataRequest :=
  ⟨["BTC"], "d", Option.none, Option.none, some 5, some 10, ["close"], 3, 0⟩

/-- Raw rows at times 7, 3 and 12; only time 7 falls inside the window. -/
def c6rows : List Row := [⟨7, PVal.num 1, 0⟩, ⟨3, PVal.num 2, 0⟩, ⟨12, PVal.num 3, 0⟩]

/-- A request with no window bounds. -/
def c7req : DataRequest :=
  ⟨["BTC"], "d", Option.none, Option.none, Option.none, Option.none, ["close"], 3, 0⟩

/-- An accumulated page set with a duplicated boundary row: the row at time 2
appears in two pages (first and last position). -/
def c7rows : List Row := [⟨2, PVal.num 5, 1⟩, ⟨1, PVal.num 4, 2⟩, ⟨2, PVal.num 5, 1⟩]

/-- An hourly request for a price field and an on-chain field (the on-chain
fetch raises on the hourly frequency; the price fetch succeeds). -/
def c10req : DataRequest :=
  ⟨["BTC"], "1h", Option.none, Option.none, Option.none, Option.none,
   ["close", "txCount"], 3, 0⟩

/-- Price-bar oracle returning one short page. -/
def c10ohOracle : String → Nat → PageResp Row := fun _ _ =>
  PageResp.success [⟨10, PVal.num 5, 1⟩]

/-- On-chain oracle (the on-chain fetch raises before any paged call). -/
def c10onOracle : String → Nat → PageResp ORow := fun _ _ => PageResp.exn

/-! Properties of the sort / dedup / clip building blocks. -/

theorem mem_insertByKey {α : Type} (key : α → Nat) (x a : α) (l : List α) :
    a ∈ insertByKey key x l ↔ a = x ∨ a ∈ l := by
  induction l with
  | nil => simp [insertByKey]
  | cons y ys ih =>
    simp only [insertByKey]
    split
    · simp [List.mem_cons]
    · simp only [List.mem_cons, ih]
      tauto

theorem insertByKey_pairwise_le {α : Type} (key : α → Nat) (x : α) {l : List α}
    (h : l.Pairwise fun a b => key a ≤ key b) :
    (insertByKey key x l).Pairwise fun a b => key a ≤ key b := by
  induction l with
  | nil => simp [insertByKey]
  | cons y ys ih =>
    rw [List.pairwise_cons] at h
    obtain ⟨hy, hys⟩ := h
    simp only [insertByKey]
    split
    case isTrue hxy =>
      refine List.Pairwise.cons ?_ (List.Pairwise.cons hy hys)
      intro z hz
      rcases List.mem_cons.mp hz with rfl | hz
      · exact hxy
      · exact le_trans hxy (hy z hz)
    case isFalse hxy =>
      refine List.Pairwise.cons ?_ (ih hys)
      intro z hz
      rcases (mem_insertByKey key x z ys).mp hz with rfl | hz
      · exact le_of_not_le hxy
      · exact hy z hz

theorem sortByKey_pairwise_le {α : Type} (key : α → Nat) (l : List α) :
    (sortByKey key l).Pairwise fun a b => key a ≤ key b := by
  induction l with
  | nil => simp [sortByKey]
  | cons x xs ih =>
    have hstep : sortByKey key (x :: xs) = insertByKey key x (sortByKey key xs) := rfl
    rw [hstep]
    exact insertByKey_pairwise_le key x ih

theorem insertByKey_filter_ne {α : Type} (key : α → Nat) (x : α) (t : Nat) (l : List α)
    (hx : key x ≠ t) :
    (insertByKey key x l).filter (fun y => key y == t)
      = l.filter fun y => key y == t := by
  induction l with
  | nil => simp [insertByKey, hx]
  | cons y ys ih =>
    simp only [insertByKey]
    split
    · simp [List.filter_cons, hx]
    · simp only [List.filter_cons, ih]

theorem insertByKey_filter_eq {α : Type} (key : α → Nat) (x : α) (t : Nat) {l : List α}
    (hl : l.Pairwise fun a b => key a ≤ key b) (hx : key x = t) :
    (insertByKey key x l).filter (fun y => key y == t)
      = x :: l.filter fun y => key y == t := by
  induction l with
  | nil => simp [insertByKey, hx]
  | cons y ys ih =>
    rw [List.pairwise_cons] at hl
    obtain ⟨hy, hys⟩ := hl
    simp only [insertByKey]
    split
    case isTrue hxy => simp [List.filter_cons, hx]
    case isFalse hxy =>
      have hyt : key y ≠ t := by
        have hlt := lt_of_not_le hxy
        omega
      simp [List.filter_cons, hyt, ih hys]

theorem sortByKey_filter {α : Type} (key : α → Nat) (t : Nat) (l : List α) :
    (sortByKey key l).filter (fun y => key y == t) = l.filter fun y => key y == t := by
  induction l with
  | nil => rfl
  | cons x xs ih =>
    have hstep : sortByKey key (x :: xs) = insertByKey key x (sortByKey key xs) := rfl
    rw [hstep]
    by_cases hx : key x = t
    · rw [insertByKey_filter_eq key x t (sortByKey_pairwise_le key xs) hx, ih]
      simp [List.filter_cons, hx]
    · rw [insertByKey_filter_ne key x t _ hx, ih]
      simp [List.filter_cons, hx]

theorem dedupFirstKey_sublist {α : Type} (key : α → Nat) (l : List α) :
    ∀ seen : List Nat, List.Sublist (dedupFirstKey key seen l) l := by
  induction l with
  | nil => intro seen; simp [dedupFirstKey]
  | cons r rs ih =>
    intro seen
    simp only [dedupFirstKey]
    split
    · exact List.Sublist.cons r (ih seen)
    · exact List.Sublist.cons₂ r (ih (key r :: seen))

theorem mem_dedupFirstKey {α : Type} (key : α → Nat) (l : List α) :
    ∀ (seen : List Nat) (r : α), r ∈ dedupFirstKey key seen l →
      key r ∉ seen ∧ (l.filter fun y => key y == key r).head? = some r := by
  induction l with
  | nil => intro seen r h; simp [dedupFirstKey] at h
  | cons x xs ih =>
    intro seen r h
    simp only [dedupFirstKey] at h
    split at h
    case isTrue hx =>
      obtain ⟨hns, hhead⟩ := ih seen r h
      have hxr : (key x == key r) = false := by
        simp only [beq_eq_false_iff_ne, ne_eq]
        intro he
        exact hns (he ▸ hx)
      rw [List.filter_cons, hxr]
      exact ⟨hns, by simpa using hhead⟩
    case isFalse hx =>
      rcases List.mem_cons.mp h with rfl | hmem
      · refine ⟨hx, ?_⟩
        rw [List.filter_cons]
        simp
      · obtain ⟨hns, hhead⟩ := ih (key x :: seen) r hmem
        simp only [List.mem_cons, not_or] at hns
        have hxr : (key x == key r) = false := by
          simp only [beq_eq_false_iff_ne, ne_eq]
          intro he
          exact hns.1 he.symm
        rw [List.filter_cons, hxr]
        exact ⟨hns.2, by simpa using hhead⟩

theorem dedupFirstKey_pairwise_ne {α : Type} (key : α → Nat) (l : List α) :
    ∀ seen : List Nat, (dedupFirstKey key seen l).Pairwise fun a b => key a ≠ key b := by
  induction l with
  | nil => intro seen; simp [dedupFirstKey]
  | cons x xs ih =>
    intro seen
    simp only [dedupFirstKey]
    split
    · exact ih seen
    · refine List.Pairwise.cons ?_ (ih _)
      intro z hz he
      have hzs := (mem_dedupFirstKey key xs (key x :: seen) z hz).1
      simp only [List.mem_cons, not_or] at hzs
      exact hzs.1 he.symm

theorem clipByKey_sublist {α : Type} (key : α → Nat) (sd ed : Option Nat) (l : List α) :
    List.Sublist (clipByKey key sd ed l) l := by
  cases sd with
  | none =>
    cases ed with
    | none => exact List.Sublist.refl l
    | some b => exact List.filter_sublist l
  | some a =>
    cases ed with
    | none => exact List.filter_sublist l
    | some b => exact (List.filter_sublist _).trans (List.filter_sublist l)

theorem mem_clipByKey_bounds {α : Type} (key : α → Nat) (a b : Nat) (l : List α)
    (r : α) (h : r ∈ clipByKey key (some a) (some b) l) :
    a ≤ key r ∧ key r ≤ b := by
  simp only [clipByKey, List.mem_filter, decide_eq_true_eq] at h
  exact ⟨h.1.2, h.2⟩

/-! Properties of the OHLCV normalizer. -/

theorem wrangle_ohlcv_pairwise_lt (req : DataRequest) (rows : List Row) :
    (wrangle_ohlcv_resp req rows).Pairwise fun a b => a.time < b.time := by
  have hle := sortByKey_pairwise_le Row.time rows
  have hdd_le : (dedupFirstKey Row.time [] (sortByKey Row.time rows)).Pairwise
      (fun a b => a.time ≤ b.time) :=
    hle.sublist (dedupFirstKey_sublist Row.time _ [])
  have hdd_ne := dedupFirstKey_pairwise_ne Row.time (sortByKey Row.time rows) []
  have hdd_lt : (dedupFirstKey Row.time [] (sortByKey Row.time rows)).Pairwise
      (fun a b => a.time < b.time) :=
    (hdd_le.and hdd_ne).imp fun hab => lt_of_le_of_ne hab.1 hab.2
  have hsub : List.Sublist (wrangle_ohlcv_resp req rows)
      (dedupFirstKey Row.time [] (sortByKey Row.time rows)) := by
    unfold wrangle_ohlcv_resp
    exact (clipByKey_sublist Row.time _ _ _).trans (List.filter_sublist _)
  exact hdd_lt.sublist hsub

theorem mem_wrangle_head (req : DataRequest) (rows : List Row) (r : Row)
    (h : r ∈ wrangle_ohlcv_resp req rows) :
    (rows.filter fun y => y.time == r.time).head? = some r := by
  have hdd : r ∈ dedupFirstKey Row.time [] (sortByKey Row.time rows) := by
    have hsub : List.Sublist (wrangle_ohlcv_resp req rows)
        (dedupFirstKey Row.time [] (sortByKey Row.time rows)) := by
      unfold wrangle_ohlcv_resp
      exact (clipByKey_sublist Row.time _ _ _).trans (List.filter_sublist _)
    exact hsub.subset h
  have hhead := (mem_dedupFirstKey Row.time (sortByKey Row.time rows) [] r hdd).2
  rwa [sortByKey_filter] at hhead

/-! Properties of the paging loop. -/

theorem pagedLoop_exit {R : Type} (stop : List R → Bool) (earliest : List R → Nat)
    (oracle : Nat → PageResp R) (trials fuel : Nat) (s : LoopState R)
    (hge : ¬ s.attempts < trials) (hf : 0 < fuel) :
    pagedLoop stop earliest oracle trials fuel s = some s := by
  obtain ⟨n, rfl⟩ : ∃ n, fuel = n + 1 := ⟨fuel - 1, by omega⟩
  simp [pagedLoop, hge]

theorem pagedLoop_fail_cont {R : Type} (stop : List R → Bool) (earliest : List R → Nat)
    (oracle : Nat → PageResp R) (trials fuel : Nat) (s : LoopState R)
    (hlt : s.attempts < trials) (ho : oracle s.calls.length = PageResp.assertFail)
    (h3 : s.attempts + 1 ≠ 3) :
    pagedLoop stop earliest oracle trials (fuel + 1) s
      = pagedLoop stop earliest oracle trials fuel (failUpd s) := by
  have hbeq : (s.attempts + 1 == 3) = false := by
    simp only [beq_eq_false_iff_ne, ne_eq]
    exact h3
  simp [pagedLoop, hlt, ho, failUpd, hbeq]

theorem pagedLoop_fail_stop {R : Type} (stop : List R → Bool) (earliest : List R → Nat)
    (oracle : Nat → PageResp R) (trials fuel : Nat) (s : LoopState R)
    (hlt : s.attempts < trials) (ho : oracle s.calls.length = PageResp.assertFail)
    (h3 : s.attempts + 1 = 3) :
    pagedLoop stop earliest oracle trials (fuel + 1) s = some (failUpd s) := by
  simp [pagedLoop, hlt, ho, failUpd, h3]

theorem pagedLoop_calls_extend {R : Type} (stop : List R → Bool) (earliest : List R → Nat)
    (oracle : Nat → PageResp R) (trials : Nat) :
    ∀ (fuel : Nat) (s t : LoopState R),
      pagedLoop stop earliest oracle trials fuel s = some t →
      ∃ ext, t.calls = s.calls ++ ext := by
  intro fuel
  induction fuel with
  | zero =>
    intro s t h
    simp [pagedLoop] at h
  | succ n ih =>
    intro s t h
    simp only [pagedLoop] at h
    split at h
    case isTrue hlt =>
      split at h
      next rows heq =>
        split at h
        case isTrue hstop =>
          obtain rfl : _ = t := Option.some.inj h
          exact ⟨[s.endDate], by simp⟩
        case isFalse hstop =>
          obtain ⟨ext, hext⟩ := ih _ t h
          refine ⟨s.endDate :: ext, ?_⟩
          simpa [List.append_assoc] using hext
      next heq =>
        split at h
        case isTrue h3 =>
          obtain rfl : _ = t := Option.some.inj h
          exact ⟨[s.endDate], by simp [failUpd]⟩
        case isFalse h3 =>
          obtain ⟨ext, hext⟩ := ih _ t h
          refine ⟨s.endDate :: ext, ?_⟩
          simpa [failUpd, List.append_assoc] using hext
      next heq =>
        obtain rfl : _ = t := Option.some.inj h
        exact ⟨[s.endDate], by simp⟩
    case isFalse hge =>
      obtain rfl : s = t := Option.some.inj h
      exact ⟨[], by simp⟩

theorem pagedLoop_next_call {R : Type} (stop : List R → Bool) (earliest : List R → Nat)
    (oracle : Nat → PageResp R) (trials fuel : Nat) (s t : LoopState R)
    (hf : 0 < fuel) (hlt : s.attempts < trials)
    (h : pagedLoop stop earliest oracle trials fuel s = some t) :
    ∃ ext, t.calls = s.calls ++ s.endDate :: ext := by
  obtain ⟨n, rfl⟩ : ∃ n, fuel = n + 1 := ⟨fuel - 1, by omega⟩
  simp only [pagedLoop] at h
  rw [if_pos hlt] at h
  split at h
  next rows heq =>
    split at h
    case isTrue hstop =>
      obtain rfl : _ = t := Option.some.inj h
      exact ⟨[], by simp⟩
    case isFalse hstop =>
      obtain ⟨ext, hext⟩ := pagedLoop_calls_extend stop earliest oracle trials n _ t h
      refine ⟨ext, ?_⟩
      simpa [List.append_assoc] using hext
  next heq =>
    split at h
    case isTrue h3 =>
      obtain rfl : _ = t := Option.some.inj h
      exact ⟨[], by simp [failUpd]⟩
    case isFalse h3 =>
      obtain ⟨ext, hext⟩ := pagedLoop_calls_extend stop earliest oracle trials n _ t h
      refine ⟨ext, ?_⟩
      simpa [failUpd, List.append_assoc] using hext
  next heq =>
    obtain rfl : _ = t := Option.some.inj h
    exact ⟨[], by simp⟩

theorem pagedLoop_allFail {R : Type} (stop : List R → Bool) (earliest : List R → Nat)
    (oracle : Nat → PageResp R) (trials fuel e0 : Nat)
    (hO : ∀ n, oracle n = PageResp.assertFail) (hfuel : min trials 3 + 1 ≤ fuel) :
    pagedLoop stop earliest oracle trials fuel (initState R e0)
      = some ⟨min trials 3, e0, [], List.replicate (min trials 3) e0, min trials 3⟩ := by
  rcases trials with _ | _ | _ | k
  · obtain ⟨n, rfl⟩ : ∃ n, fuel = n + 1 := ⟨fuel - 1, by omega⟩
    rw [pagedLoop_exit stop earliest oracle 0 (n + 1) _ (by simp [initState]) (by omega)]
    simp [initState]
  · obtain ⟨n, rfl⟩ : ∃ n, fuel = n + 1 + 1 := ⟨fuel - 2, by omega⟩
    rw [pagedLoop_fail_cont stop earliest oracle 1 (n + 1) _ (by simp [initState])
      (hO _) (by simp [initState])]
    rw [pagedLoop_exit stop earliest oracle 1 (n + 1) _ (by simp [initState, failUpd])
      (by omega)]
    simp [initState, failUpd, List.replicate]
  · obtain ⟨n, rfl⟩ : ∃ n, fuel = n + 1 + 1 + 1 := ⟨fuel - 3, by omega⟩
    rw [pagedLoop_fail_cont stop earliest oracle 2 (n + 1 + 1) _ (by simp [initState])
      (hO _) (by simp [initState])]
    rw [pagedLoop_fail_cont stop earliest oracle 2 (n + 1) _ (by simp [initState, failUpd])
      (hO _) (by simp [initState, failUpd])]
    rw [pagedLoop_exit stop earliest oracle 2 (n + 1) _ (by simp [initState, failUpd])
      (by omega)]
    simp [initState, failUpd, List.replicate]
  · obtain ⟨n, rfl⟩ : ∃ n, fuel = n + 1 + 1 + 1 := ⟨fuel - 3, by omega⟩
    rw [pagedLoop_fail_cont stop earliest oracle (k + 3) (n + 1 + 1) _
      (by simp [initState]) (hO _) (by simp [initState])]
    rw [pagedLoop_fail_cont stop earliest oracle (k + 3) (n + 1) _
      (by simp [initState, failUpd]) (hO _) (by simp [initState, failUpd])]
    rw [pagedLoop_fail_stop stop earliest oracle (k + 3) n _
      (by simp [initState, failUpd]) (hO _) (by simp [initState, failUpd])]
    have hmin : min (k + 3) 3 = 3 := by omega
    simp [initState, failUpd, List.replicate, hmin]

/-- Every column a price fetch can produce comes from the fixed projection
of `wrangle_ohlcv_resp`, so it lies in `ohlcvFields`. -/
theorem fetchOhlcvGo_cols (req : DataRequest) (oracle : String → Nat → PageResp Row)
    (maxObs fuel endD : Nat) :
    ∀ (ts : List String) (acc res : OhlcvResult),
      (∀ c ∈ acc.frame.cols, c ∈ ohlcvFields) →
      fetchOhlcvGo req oracle maxObs fuel endD ts acc = some res →
      ∀ c ∈ res.frame.cols, c ∈ ohlcvFields := by
  intro ts
  induction ts with
  | nil =>
    intro acc res hacc h
    simp only [fetchOhlcvGo] at h
    obtain rfl : acc = res := Option.some.inj h
    exact hacc
  | cons t ts ih =>
    intro acc res hacc h
    simp only [fetchOhlcvGo] at h
    split at h
    · exact absurd h (by simp)
    · split at h
      · exact ih acc res hacc h
      · refine ih _ res ?_ h
        intro c hc
        simp only [concatFrames, List.mem_append, List.mem_filter] at hc
        rcases hc with hc | hc
        · exact hacc c hc
        · exact hc.1

/-- The columns of `fetch_ohlcv`'s frame all lie in `ohlcvFields`. -/
theorem fetch_ohlcv_cols (req : DataRequest) (oracle : String → Nat → PageResp Row)
    (maxObs fuel now : Nat) (res : OhlcvResult)
    (h : fetch_ohlcv req oracle maxObs fuel now = some res) :
    ∀ c ∈ res.frame.cols, c ∈ ohlcvFields := by
  refine fetchOhlcvGo_cols req oracle maxObs fuel _ req.tickers ⟨emptyFrame, []⟩ res ?_ h
  simp [emptyFrame]

/-- The OHLCV normalizer on an empty accumulator yields the empty table. -/
theorem wrangle_ohlcv_nil (req : DataRequest) : wrangle_ohlcv_resp req [] = [] := by
  unfold wrangle_ohlcv_resp sortByKey dedupFirstKey clipByKey
  cases req.start_date <;> cases req.end_date <;> simp

/-! The claims. -/

/-- C1: for a minute-granularity frequency token, `convert_data_req_params`
does NOT set the vendor start to the epoch of 7 days before now: the clamp
computed at cryptocompare.py line 248 is unconditionally overwritten by the
independent if/else of lines 250-253, so any requested start date (here any
`startD`, including dates earlier than 7 days ago) is passed through
unchanged. This evaluates the code at the failing input family. -/
theorem c1_minute_clamp_overwritten :
    ∀ now startD : Nat, convert_start_date "1min" (some startD) now = startD :=
  fun _ _ => rfl

/-- C5: `fetch_data` never returns a silently empty table — any successful
return carries a non-empty frame; when nothing was gathered the empty-result
check raises instead. -/
theorem c5_no_silent_empty_result (req : DataRequest) (fieldsList : List String)
    (ohlcvOracle : String → Nat → PageResp Row)
    (onchainOracle : String → Nat → PageResp ORow)
    (maxObs fuel now : Nat) (fr : Frame)
    (h : fetch_data req fieldsList ohlcvOracle onchainOracle maxObs fuel now
          = some (Except.ok fr)) :
    fr.nonempty = true := by
  simp only [fetch_data] at h
  split at h
  · exact absurd (Option.some.inj h) (by simp)
  · split at h
    · exact Option.noConfusion h
    · split at h
      · exact Option.noConfusion h
      · split at h
        · exact absurd (Option.some.inj h) (by simp)
        case isFalse hne =>
          split at h
          · obtain heq := Option.some.inj h
            obtain rfl : _ = fr := Except.ok.inj heq
            simpa using hne
          · exact absurd (Option.some.inj h) (by simp)

/-- C5 witness: a concrete successful fetch, whose result the theorem shows
non-empty. -/
theorem c5_witness : Frame.nonempty ⟨["close"], true⟩ = true :=
  c5_no_silent_empty_result c5req ohlcvFields c5ohOracle c5onOracle 2000 2 100
    ⟨["close"], true⟩ rfl

/-- C6: when the Request Descriptor carries both a start and an end date,
every row of the normalized output table has a timestamp inside the
inclusive window. -/
theorem c6_window_clip (req : DataRequest) (rows : List Row) (a b : Nat)
    (hs : req.start_date = some a) (he : req.end_date = some b) :
    ∀ r ∈ wrangle_ohlcv_resp req rows, a ≤ r.time ∧ r.time ≤ b := by
  intro r hr
  simp only [wrangle_ohlcv_resp, hs, he] at hr
  exact mem_clipByKey_bounds Row.time a b _ r hr

/-- C6 witness: the window [5, 10] applied to rows at times 7, 3, 12 keeps
the row at time 7, and the theorem bounds it. -/
theorem c6_witness : 5 ≤ Row.time ⟨7, PVal.num 1, 0⟩ ∧ Row.time ⟨7, PVal.num 1, 0⟩ ≤ 10 :=
  c6_window_clip c6req c6rows 5 10 rfl rfl ⟨7, PVal.num 1, 0⟩ (by decide)

/-- C7: the normalizer produces strictly increasing timestamps (hence exactly
one row per timestamp), and each output row is the first occurrence of its
timestamp in the accumulated page set — also when a boundary row is
duplicated across consecutive pages. -/
theorem c7_normalizer_dedup (req : DataRequest) (rows : List Row) :
    (wrangle_ohlcv_resp req rows).Pairwise (fun a b => a.time < b.time) ∧
    ∀ r ∈ wrangle_ohlcv_resp req rows,
      (rows.filter fun y => y.time == r.time).head? = some r :=
  ⟨wrangle_ohlcv_pairwise_lt req rows, fun r hr => mem_wrangle_head req rows r hr⟩

/-- C8 counterexample: the vendor answers the assets listing with a
non-Success status and no parseable Data payload; `get_assets` raises a
KeyError past the warning, and the constructor (which calls it with no
handler) raises out of construction. -/
theorem c8_cex_construction_raises :
    cryptoCompareInitAssets Option.none (HttpResult.resp ⟨"Error", Option.none⟩)
      = Except.error "KeyError: Data" := rfl

/-- C8 amended: only the status assertion is guarded. A response with a
parseable Data payload completes (warn-and-continue, whatever the status),
but a response without the payload raises a KeyError out of construction
and a transport error propagates uncaught. -/
theorem c8_amended_catalog_guard (s : String) (d : List String) :
    get_assets (HttpResult.resp ⟨s, some d⟩) = Except.ok d ∧
    get_assets (HttpResult.resp ⟨s, Option.none⟩) = Except.error "KeyError: Data" ∧
    get_assets HttpResult.transportErr
      = Except.error "requests transport error propagates" :=
  ⟨rfl, rfl, rfl⟩

/-- C9 counterexample: the `fields` setter stores an integer — a value that
is neither a string nor a list of strings — unchanged, so an invalid value
is stored without raising. -/
theorem c9_cex_fields_stores_invalid :
    fields_setter (PyVal.int 7) = PyVal.int 7 ∧ validFieldsVal (PyVal.int 7) = false :=
  ⟨rfl, rfl⟩

/-- C9 amended: the `fields` setter performs no validation (any non-string
value, valid or not, is stored unchanged); the `trials` setter stores only
None or an int and raises (a NameError from the misspelled `trial`) on
everything else, including the documented string form; the `freq` setter
does validate eagerly against the token enumeration. -/
theorem c9_amended_setters :
    (∀ v : PyVal, (∀ s, v ≠ PyVal.str s) → fields_setter v = v) ∧
    (∀ v r, trials_setter v = Except.ok r → r = PyVal.none ∨ ∃ n, r = PyVal.int n) ∧
    (∀ v r, freq_setter v = Except.ok r → r ∈ freqTokens) := by
  refine ⟨?_, ?_, ?_⟩
  · intro v hv
    cases v with
    | str s => exact absurd rfl (hv s)
    | int n => rfl
    | float a b => rfl
    | list l => rfl
    | none => rfl
    | dict => rfl
  · intro v r h
    cases v with
    | str s => exact Except.noConfusion h
    | int n => exact Or.inr ⟨n, (Except.ok.inj h).symm⟩
    | float a b => exact Except.noConfusion h
    | list l => exact Except.noConfusion h
    | none => exact Or.inl (Except.ok.inj h).symm
    | dict => exact Except.noConfusion h
  · intro v r h
    unfold freq_setter at h
    split at h
    case isTrue hmem => obtain rfl : v = r := Except.ok.inj h; exact hmem
    case isFalse hmem => exact Except.noConfusion h

/-- C2 counterexample: with the Request Descriptor's retry count set to 5 and
every page attempt answered by a non-Success response, the per-symbol loop
makes exactly 3 calls — the hard-coded `attempts == 3` break at
cryptocompare.py line 400 fires before the descriptor's budget is used. -/
theorem c2_cex_retry_cap :
    (pagedLoop (ohlcvStop 2000) earliestTime allFailRow 5 10 (initState Row 1000)).map
        (fun s => s.calls.length) = some 3 := rfl

/-- C2 amended: a non-Success page response is retried at the same cursor
with a pause per failed attempt, but only up to min(trials, 3) attempts (the
hard-coded break), after which the symbol is abandoned with an empty
accumulator while the other symbol's wrangled data is still returned
(partial results). -/
theorem c2_amended_retry (req : DataRequest) (oracle : String → Nat → PageResp Row)
    (a b : String) (maxObs fuel now : Nat) (sB : LoopState Row)
    (hT : req.tickers = [a, b])
    (hA : ∀ n, oracle a n = PageResp.assertFail)
    (hfuel : min req.trials 3 + 1 ≤ fuel)
    (hB : pagedLoop (ohlcvStop maxObs) earliestTime (oracle b) req.trials fuel
            (initState Row (convert_end_date req.end_date now)) = some sB) :
    pagedLoop (ohlcvStop maxObs) earliestTime (oracle a) req.trials fuel
        (initState Row (convert_end_date req.end_date now))
      = some ⟨min req.trials 3, convert_end_date req.end_date now, [],
              List.replicate (min req.trials 3) (convert_end_date req.end_date now),
              min req.trials 3⟩ ∧
    (fetch_ohlcv req oracle maxObs fuel now).map OhlcvResult.rows
      = some ((wrangle_ohlcv_resp req sB.acc).map fun r => (b, r)) := by
  have hAloop := pagedLoop_allFail (ohlcvStop maxObs) earliestTime (oracle a) req.trials
      fuel (convert_end_date req.end_date now) hA hfuel
  refine ⟨hAloop, ?_⟩
  unfold fetch_ohlcv
  rw [hT]
  simp only [fetchOhlcvGo]
  rw [hAloop, hB]
  simp only [List.isEmpty_nil, if_true]
  by_cases hempty : sB.acc.isEmpty
  · have hacc : sB.acc = [] := List.isEmpty_iff.mp hempty
    rw [if_pos hempty]
    simp [fetchOhlcvGo, hacc, wrangle_ohlcv_nil]
  · rw [if_neg hempty]
    simp [fetchOhlcvGo]

/-- C2 witness: the amended theorem applied to the two-ticker request c2req
(retry count 5): AAA is retried 3 times at the unchanged cursor and dropped,
BBB's single-page data is returned. -/
theorem c2_witness :
    pagedLoop (ohlcvStop 2000) earliestTime (c2oracle "AAA") c2req.trials 4
        (initState Row (convert_end_date c2req.end_date 1000))
      = some ⟨min c2req.trials 3, convert_end_date c2req.end_date 1000, [],
              List.replicate (min c2req.trials 3) (convert_end_date c2req.end_date 1000),
              min c2req.trials 3⟩ ∧
    (fetch_ohlcv c2req c2oracle 2000 4 1000).map OhlcvResult.rows
      = some ((wrangle_ohlcv_resp c2req c2sB.acc).map fun r => ("BBB", r)) :=
  c2_amended_retry c2req c2oracle "AAA" "BBB" 2000 4 1000 c2sB rfl
    (fun n => by simp [c2oracle]) (by decide) rfl

/-- C3 counterexample: the first page is full (two rows at page size 1) with
clean closes, and its earliest timestamp 5 lies below the requested start
100 of c3req — the claim requires paging to stop here, yet the loop issues a
second call at cursor 5 (the requested floor is never consulted). -/
theorem c3_cex_no_start_floor_check :
    c3req.start_date = some 100 ∧
    (pagedLoop (ohlcvStop 1) earliestTime c3oracle c3req.trials 5 (initState Row 50)).map
        (fun s => s.calls) = some [50, 5] := ⟨rfl, rfl⟩

/-- One loop step on a successful page meeting the stop condition. -/
theorem pagedLoop_success_stop {R : Type} (stop : List R → Bool) (earliest : List R → Nat)
    (oracle : Nat → PageResp R) (trials fuel : Nat) (s : LoopState R) (rows : List R)
    (hlt : s.attempts < trials) (ho : oracle s.calls.length = PageResp.success rows)
    (hstop : stop rows = true) :
    pagedLoop stop earliest oracle trials (fuel + 1) s
      = some { s with calls := s.calls ++ [s.endDate], acc := s.acc ++ rows } := by
  simp [pagedLoop, hlt, ho, hstop]

/-- One loop step on a successful page failing the stop condition: advance
the cursor to the earliest timestamp of the page and keep looping. -/
theorem pagedLoop_success_cont {R : Type} (stop : List R → Bool) (earliest : List R → Nat)
    (oracle : Nat → PageResp R) (trials fuel : Nat) (s : LoopState R) (rows : List R)
    (hlt : s.attempts < trials) (ho : oracle s.calls.length = PageResp.success rows)
    (hstop : stop rows = false) :
    pagedLoop stop earliest oracle trials (fuel + 1) s
      = pagedLoop stop earliest oracle trials fuel
          { s with calls := s.calls ++ [s.endDate], acc := s.acc ++ rows,
                   endDate := earliest rows, pauses := s.pauses + 1 } := by
  simp [pagedLoop, hlt, ho, hstop]

/-- C3 amended: on the success path the loop stops exactly when the page is
shorter than max_obs_per_call + 1 or the earliest close of the page is the
zero/NaN sentinel; the requested start floor is not part of the stop
condition (it is applied later by the normalizer); when the stop condition
fails, the cursor advances to the earliest timestamp of the page and the
next call is made at that cursor. -/
theorem c3_amended_stop_conditions (oracle : Nat → PageResp Row)
    (maxObs trials fuel : Nat) (s : LoopState Row) (p : List Row)
    (hlt : s.attempts < trials)
    (ho : oracle s.calls.length = PageResp.success p) :
    (ohlcvStop maxObs p = true →
      pagedLoop (ohlcvStop maxObs) earliestTime oracle trials (fuel + 1) s
        = some { s with calls := s.calls ++ [s.endDate], acc := s.acc ++ p }) ∧
    (ohlcvStop maxObs p = false → ∀ t,
      pagedLoop (ohlcvStop maxObs) earliestTime oracle trials (fuel + 2) s = some t →
      ∃ ext, t.calls = (s.calls ++ [s.endDate]) ++ earliestTime p :: ext) := by
  constructor
  · intro hstop
    exact pagedLoop_success_stop (ohlcvStop maxObs) earliestTime oracle trials fuel s p
      hlt ho hstop
  · intro hstop t h
    rw [show fuel + 2 = (fuel + 1) + 1 from rfl,
      pagedLoop_success_cont (ohlcvStop maxObs) earliestTime oracle trials (fuel + 1) s p
        hlt ho hstop] at h
    obtain ⟨ext, hext⟩ := pagedLoop_next_call (ohlcvStop maxObs) earliestTime oracle
      trials (fuel + 1) _ t (by omega) (by simpa using hlt) h
    exact ⟨ext, by simpa using hext⟩

/-- C3 witness: the amended theorem applied at a short page (one row at page
size 2000): the loop stops with that page appended and no further call. -/
theorem c3_witness :
    pagedLoop (ohlcvStop 2000) earliestTime c3wOracle 3 1 (initState Row 50)
      = some ⟨0, 50, [⟨7, PVal.num 1, 1⟩], [50], 0⟩ := by
  have h := (c3_amended_stop_conditions c3wOracle 2000 3 0 (initState Row 50)
      [⟨7, PVal.num 1, 1⟩] (by decide) rfl).1 (by decide)
  simpa [initState] using h

/-- C4 counterexample: a weekly request (frequency token w — not daily) for
an on-chain field is NOT rejected: `convertFreq` maps w to the daily vendor
keyword, so `fetch_onchain` proceeds and performs a paged HTTP data call,
returning data instead of raising. -/
theorem c4_cex_weekly_not_rejected :
    fetch_onchain c4wreq ["txCount"] c4wOracle 2000 2 100
      = some (Except.ok ⟨["txCount"], true⟩, 1) := rfl

/-- C4 amended: requesting on-chain fields at a frequency whose vendor
translation is sub-daily raises immediately in `fetch_onchain`, with zero
paged HTTP data calls and zero retries (tokens such as w, m or tick
translate to the daily keyword and proceed instead); the exception is caught
and only logged inside `fetch_data`, but the call still surfaces an error to
the caller — the empty-result error or the field-projection KeyError. -/
theorem c4_amended_onchain_freq_guard (req : DataRequest) (fieldsList : List String)
    (ohOracle : String → Nat → PageResp Row) (onOracle : String → Nat → PageResp ORow)
    (maxObs fuel now : Nat) (fo : String) (ohres : OhlcvResult)
    (hfreq : convertFreq req.freq ≠ "histoday")
    (hfo1 : fo ∈ req.fields) (hfo2 : fo ∈ fieldsList.drop 5) (hfo3 : fo ∉ ohlcvFields)
    (hoh : fetch_ohlcv req ohOracle maxObs fuel now = some ohres) :
    fetch_onchain req (fieldsList.drop 5) onOracle maxObs fuel now
      = some (Except.error "On-chain data is only available on a daily frequency", 0) ∧
    ∃ e, fetch_data req fieldsList ohOracle onOracle maxObs fuel now
      = some (Except.error e) := by
  have hbeq : (convertFreq req.freq != "histoday") = true := by
    simpa using hfreq
  have honchain : fetch_onchain req (fieldsList.drop 5) onOracle maxObs fuel now
      = some (Except.error "On-chain data is only available on a daily frequency", 0) := by
    simp only [fetch_onchain, hbeq, if_true]
  refine ⟨honchain, ?_⟩
  have hanyOn : (req.fields.any fun f => (List.drop 5 fieldsList).contains f) = true :=
    List.any_eq_true.mpr ⟨fo, hfo1, by simpa using hfo2⟩
  simp only [fetch_data, hanyOn, honchain, if_true]
  split
  · exact ⟨"Fields are not available", rfl⟩
  case isFalse hall =>
    by_cases hanyP : (req.fields.any fun f => (List.take 5 fieldsList).contains f) = true
    · simp only [hanyP, if_true, hoh]
      have hcols : fo ∉ (concatFrames emptyFrame ohres.frame).cols := by
        intro hmem
        simp only [concatFrames, emptyFrame, List.nil_append, List.mem_filter] at hmem
        exact hfo3 (fetch_ohlcv_cols req ohOracle maxObs fuel now ohres hoh fo hmem.1)
      by_cases hne : (concatFrames emptyFrame ohres.frame).nonempty = true
      · have hnotforall :
            ¬ ∀ x ∈ req.fields, x ∈ (concatFrames emptyFrame ohres.frame).cols :=
          fun hforall => hcols (hforall fo hfo1)
        refine ⟨"KeyError: requested fields not in columns", ?_⟩
        simp [hne, hnotforall]
      · have hne' : (concatFrames emptyFrame ohres.frame).nonempty = false :=
          Bool.eq_false_iff.mpr hne
        refine ⟨"Check data request parameters and try again", ?_⟩
        simp [hne']
    · have hnotexP : ¬ ∃ x ∈ req.fields, x ∈ List.take 5 fieldsList := by
        rintro ⟨x, hx1, hx2⟩
        exact hanyP (List.any_eq_true.mpr ⟨x, hx1, by simpa using hx2⟩)
      refine ⟨"Check data request parameters and try again", ?_⟩
      simp [hnotexP, emptyFrame]

/-- C4 witness: the amended theorem at the hourly request c4req for fields
close and txCount with the catalog c4cat: the on-chain fetch raises with
zero paged calls, and fetch_data surfaces an error. -/
theorem c4_witness :
    fetch_onchain c4req (c4cat.drop 5) c4onOracle 2000 4 100
      = some (Except.error "On-chain data is only available on a daily frequency", 0) ∧
    ∃ e, fetch_data c4req c4cat c4ohOracle c4onOracle 2000 4 100
      = some (Except.error e) :=
  c4_amended_onchain_freq_guard c4req c4cat c4ohOracle c4onOracle 2000 4 100 "txCount"
    ⟨⟨[], false⟩, []⟩ (by decide) (by decide) (by decide) (by decide) rfl

/-- C10 (implicit): when the requested fields span both kinds and exactly one
kind yields data — the price fetch yields a non-empty frame while the
on-chain fetch raises, or the price fetch yields nothing while the on-chain
fetch yields data — fetch_data does not return the partial single-kind
table: the final projection raises a KeyError. -/
theorem c10_cross_kind_keyerror (req : DataRequest) (fieldsList : List String)
    (ohOracle : String → Nat → PageResp Row) (onOracle : String → Nat → PageResp ORow)
    (maxObs fuel now : Nat) (fp fo : String)
    (hall : (req.fields.all fun f => fieldsList.contains f) = true)
    (hfp1 : fp ∈ req.fields) (hfp2 : fp ∈ fieldsList.take 5)
    (hfo1 : fo ∈ req.fields) (hfo2 : fo ∈ fieldsList.drop 5) (hfo3 : fo ∉ ohlcvFields) :
    (∀ ohres e n,
       fetch_ohlcv req ohOracle maxObs fuel now = some ohres →
       ohres.frame.nonempty = true →
       fetch_onchain req (fieldsList.drop 5) onOracle maxObs fuel now
         = some (Except.error e, n) →
       fetch_data req fieldsList ohOracle onOracle maxObs fuel now
         = some (Except.error "KeyError: requested fields not in columns")) ∧
    (∀ ohres onfr n,
       fetch_ohlcv req ohOracle maxObs fuel now = some ohres →
       ohres.frame = emptyFrame →
       fetch_onchain req (fieldsList.drop 5) onOracle maxObs fuel now
         = some (Except.ok onfr, n) →
       onfr.nonempty = true →
       fp ∉ onfr.cols →
       fetch_data req fieldsList ohOracle onOracle maxObs fuel now
         = some (Except.error "KeyError: requested fields not in columns")) := by
  have hanyP : (req.fields.any fun f => (List.take 5 fieldsList).contains f) = true :=
    List.any_eq_true.mpr ⟨fp, hfp1, by simpa using hfp2⟩
  have hanyOn : (req.fields.any fun f => (List.drop 5 fieldsList).contains f) = true :=
    List.any_eq_true.mpr ⟨fo, hfo1, by simpa using hfo2⟩
  have hnotall : (!(req.fields.all fun f => fieldsList.contains f)) = false := by
    simp only [hall, Bool.not_true]
  constructor
  · intro ohres e n hoh hne honchain
    have hcols : fo ∉ (concatFrames emptyFrame ohres.frame).cols := by
      intro hmem
      simp only [concatFrames, emptyFrame, List.nil_append, List.mem_filter] at hmem
      exact hfo3 (fetch_ohlcv_cols req ohOracle maxObs fuel now ohres hoh fo hmem.1)
    have hnotforall :
        ¬ ∀ x ∈ req.fields, x ∈ (concatFrames emptyFrame ohres.frame).cols :=
      fun hforall => hcols (hforall fo hfo1)
    have hdfne : (concatFrames emptyFrame ohres.frame).nonempty = true := by
      simp [concatFrames, emptyFrame, hne]
    simp only [fetch_data, hnotall, Bool.false_eq_true, if_false, hanyP, hanyOn, if_true,
      hoh, honchain]
    simp [hdfne, hnotforall]
  · intro ohres onfr n hoh hframe honchain honfr hfp3
    have hdf2cols : ∀ c, c ∈ (concatFrames (concatFrames emptyFrame ohres.frame) onfr).cols
        → c ∈ onfr.cols := by
      intro c hc
      simp [hframe, concatFrames, emptyFrame] at hc
      exact hc
    have hnotforall :
        ¬ ∀ x ∈ req.fields,
            x ∈ (concatFrames (concatFrames emptyFrame ohres.frame) onfr).cols :=
      fun hforall => hfp3 (hdf2cols fp (hforall fp hfp1))
    have hdfne : (concatFrames (concatFrames emptyFrame ohres.frame) onfr).nonempty
        = true := by
      simp [concatFrames, emptyFrame, hframe, honfr]
    simp only [fetch_data, hnotall, Bool.false_eq_true, if_false, hanyP, hanyOn, if_true,
      hoh, honchain]
    simp [hdfne, hnotforall]

/-- C10 witness: the hourly request c10req for close and txCount against
c4cat — the price fetch returns one page of data, the on-chain fetch raises
on the hourly frequency, and fetch_data ends in the projection KeyError
rather than returning the price-only table. -/
theorem c10_witness :
    fetch_data c10req c4cat c10ohOracle c10onOracle 2000 4 100
      = some (Except.error "KeyError: requested fields not in columns") :=
  (c10_cross_kind_keyerror c10req c4cat c10ohOracle c10onOracle 2000 4 100 "close"
      "txCount" (by decide) (by decide) (by decide) (by decide) (by decide)
      (by decide)).1
    ⟨⟨ohlcvFields, true⟩, [("BTC", ⟨10, PVal.num 5, 1⟩)]⟩
    "On-chain data is only available on a daily frequency" 0 rfl rfl rfl

end CryptoDataPy
